import Mathlib

/-!
Verification of the analytics/aggregation engine of the Vehicle Registration
Data Dashboard repository.

The development shallowly embeds the two growth computations of the
repository and the `DataProcessor` pipeline of `src/data_processing.py`:

* `calculate_growth` embeds the dashboard growth metric
  (`app.py`, `calculate_growth(df, period)`), a pure function of the
  filtered record set and the caller-selected end date of the active
  range (`end_date` in the surrounding scope).
* `clean_data`, `calculate_metrics`, `get_time_series`, `get_breakdown`
  and `get_trends` embed the corresponding `DataProcessor` methods.

Machine reals are idealised as `Rat` (the concrete values appearing in the
claims are exactly representable).  Python's `round` (banker's rounding)
is modelled by `pyRound`.

Sorting is modelled at two levels of fidelity.  Python's `sorted`
(used on the distinct `year_quarter` labels) is stable and is embedded
exactly as `List.insertionSort`.  Pandas `sort_values` uses numpy's
`kind='quicksort'` (introsort), which runs a genuine insertion sort only
on ranges of at most `SMALL_QUICKSORT + 1 = 16` elements and otherwise
partitions, swapping equal keys; its tie order is therefore unspecified
above 16 elements.  Accordingly:

* `breakdownCore` and `clean_data` use the stable `List.insertionSort`
  as the *small-range / order-insensitive* model: theorems about them
  either claim only properties that hold for every correct sort
  (membership, permutation, length, sortedness w.r.t. the sort key) or
  carry an explicit `≤ 16` group-count hypothesis confining them to the
  regime where numpy's quicksort is literally an insertion sort;
* `npyAargsort` embeds numpy's `aquicksort` routine
  (`npysort/quicksort.c.src`: median-of-3 introsort with an explicit
  stack and insertion sort below `SMALL_QUICKSORT`), and
  `pandasDescIndexer` embeds pandas' `nargsort` descending path
  (reverse, ascending argsort, index map, reverse); they witness the
  tie scrambling of the real sort beyond 16 equal keys.
-/

/-- A calendar date, as carried by a pandas timestamp.  Only the calendar
fields matter to the engine. -/
structure Date where
  year : Int
  month : Nat
  day : Nat
deriving DecidableEq, Repr

/-- Calendar quarter of a month, `((month-1) // 3) + 1`
(pandas `dt.quarter`). -/
def quarterOf (m : Nat) : Nat := (m - 1) / 3 + 1

/-- Total order key of a date; timestamp comparisons in the source are
modelled through this key (lexicographic year/month/day). -/
def dateIdx (d : Date) : Int := d.year * 10000 + (d.month : Int) * 100 + (d.day : Int)

/-- `strftime('%B')` month names. -/
def monthName (m : Nat) : String :=
  (["January", "February", "March", "April", "May", "June", "July",
    "August", "September", "October", "November", "December"]).getD (m - 1) ""

/-- `strftime('%b')` month abbreviations. -/
def monthAbbrev (m : Nat) : String :=
  (["Jan", "Feb", "Mar", "Apr", "May", "Jun", "Jul",
    "Aug", "Sep", "Oct", "Nov", "Dec"]).getD (m - 1) ""

/-- Python's `round(q, nd)` on exact rationals: scale by `10^nd`, round
half to even, scale back.  The rounding of the scaled value is computed
on the integer numerator/denominator of `q` (for an exact rational this
is the same quantity; it keeps the definition kernel-computable). -/
def pyRound (nd : Nat) (q : Rat) : Rat :=
  let s : Int := (10 : Int) ^ nd
  let n := q.num * s
  let d : Int := (q.den : Int)
  let f := n.fdiv d
  let rem := n - f * d
  let i := if 2 * rem < d then f
    else if d < 2 * rem then f + 1
    else if f % 2 = 0 then f else f + 1
  Rat.divInt i s

/-- Strict lexicographic comparison of char lists by code point, the
order Python uses to compare strings. -/
def strLtB : List Char → List Char → Bool
  | [], [] => false
  | [], _ :: _ => true
  | _ :: _, [] => false
  | a :: as, b :: bs =>
    if a.toNat < b.toNat then true
    else if b.toNat < a.toNat then false
    else strLtB as bs

/-- Python's `<=` on strings (used by `sorted` and by pandas ascending
sorts of object columns). -/
def strLe (a b : String) : Prop := strLtB b.data a.data = false

/-- Python's `<` on strings. -/
def strLt (a b : String) : Prop := strLtB a.data b.data = true

instance : DecidableRel strLe := fun _ _ => inferInstanceAs (Decidable (_ = false))

instance : DecidableRel strLt := fun _ _ => inferInstanceAs (Decidable (_ = true))

/-! ## The dashboard growth metric (`app.py`, `calculate_growth`) -/

/-- One row of the dashboard's (already filtered) data frame: columns
`date`, `vehicle_type`, `manufacturer`, `registrations`. -/
structure Row where
  date : Date
  vehicle_type : String
  manufacturer : String
  registrations : Int
deriving DecidableEq, Repr

/-- The `period` argument of `calculate_growth`. -/
inductive Period where
  | yoy
  | qoq
deriving DecidableEq, Repr

/-- Sum of the `registrations` column. -/
def sumRow (l : List Row) : Int := (l.map (·.registrations)).sum

/-- `(previous_year, previous_quarter)` as computed in the `qoq` branch of
`calculate_growth`: quarter 1 wraps to quarter 4 of the previous year. -/
def prevQuarterPair (e : Date) : Int × Nat :=
  if quarterOf e.month = 1 then (e.year - 1, 4) else (e.year, quarterOf e.month - 1)

/-- `current_data` of `calculate_growth`: the rows of the as-of year
(`yoy`) resp. the as-of (quarter, year) (`qoq`), where the as-of date is
the caller-selected `end_date`. -/
def currentSlice (df : List Row) (e : Date) : Period → List Row
  | .yoy => df.filter (fun r => decide (r.date.year = e.year))
  | .qoq => df.filter (fun r =>
      decide (quarterOf r.date.month = quarterOf e.month ∧ r.date.year = e.year))

/-- `previous_data` of `calculate_growth`: the rows of the year before the
as-of year (`yoy`) resp. of `prevQuarterPair` (`qoq`). -/
def comparisonSlice (df : List Row) (e : Date) : Period → List Row
  | .yoy => df.filter (fun r => decide (r.date.year = e.year - 1))
  | .qoq => df.filter (fun r =>
      decide (quarterOf r.date.month = (prevQuarterPair e).2 ∧
        r.date.year = (prevQuarterPair e).1))

/-- The final growth computation of `calculate_growth`:
`if previous == 0: return 0.0` and otherwise
`round(((current - previous) / previous) * 100, 1)`.  The rational
`Rat.divInt ((c - p) * 100) p` is exactly `((c - p) / p) * 100`
(see `growthRate_eq_formula`). -/
def growthRate (c p : Int) : Rat :=
  if p = 0 then 0 else pyRound 1 (Rat.divInt ((c - p) * 100) p)

/-- `calculate_growth(df, period)` of `app.py`: empty input or an empty
comparison period yield `0.0`; otherwise the rounded growth rate of the
two period sums.  (The source's column-presence test is vacuous in the
typed embedding; the `try/except` wrapper is unreachable for well-typed
input.) -/
def calculate_growth (df : List Row) (e : Date) (p : Period) : Rat :=
  if df.isEmpty then 0
  else if (comparisonSlice df e p).isEmpty then 0
  else growthRate (sumRow (currentSlice df e p)) (sumRow (comparisonSlice df e p))

/-- Modelled from the spec:  "comparison period = the immediately
preceding quarter, with explicit year-boundary handling — quarter 1 of
year Y compares against quarter 4 of year Y−1".  Spec-side definition,
to be compared with the code's `prevQuarterPair`. -/
def specPrevQuarter (y : Int) (q : Nat) : Int × Nat :=
  if q = 1 then (y - 1, 4) else (y, q - 1)

/-! ## The `DataProcessor` pipeline (`src/data_processing.py`) -/

/-- Result of `pd.to_datetime(x, errors='coerce')` on one raw date cell:
either a valid calendar date or `NaT`. -/
inductive RawDate where
  | valid (d : Date)
  | invalid
deriving DecidableEq, Repr

/-- One raw count cell, prior to `pd.to_numeric(errors='coerce')`:
missing (`NaN`), unparseable (coerced to `NaN`), or a parsed integer. -/
inductive RawCount where
  | missing
  | unparseable
  | value (n : Int)
deriving DecidableEq, Repr

/-- One raw input row of `DataProcessor.clean_data`. -/
structure RawRecord where
  date : RawDate
  vehicle_type : String
  manufacturer : String
  registrations : RawCount
deriving DecidableEq, Repr

/-- One normalized row, with the derived calendar columns attached by
`clean_data`. -/
structure Record where
  date : Date
  vehicle_type : String
  manufacturer : String
  registrations : Int
  year : Int
  quarter : Nat
  month : Nat
  month_name : String
  year_quarter : String
deriving DecidableEq, Repr

/-- `pd.to_numeric(errors='coerce')` followed by `.fillna(0).astype(int)`:
missing/unparseable cells become 0; a parsed integer (of either sign)
passes through. -/
def parseCount : RawCount → Int
  | .value n => n
  | _ => 0

/-- Attach the derived calendar columns (`year`, `quarter`, `month`,
`month_name`, `year_quarter`) to a parsed row. -/
def deriveRecord (d : Date) (vt mf : String) (n : Int) : Record :=
  { date := d
    vehicle_type := vt
    manufacturer := mf
    registrations := n
    year := d.year
    quarter := quarterOf d.month
    month := d.month
    month_name := monthName d.month
    year_quarter := toString d.year ++ " Q" ++ toString (quarterOf d.month) }

/-- Per-row effect of `clean_data`: rows with an unparseable date are
dropped (`dropna(subset=['date'])`), the rest are normalized. -/
def parseRow (r : RawRecord) : Option Record :=
  match r.date with
  | .invalid => none
  | .valid d => some (deriveRecord d r.vehicle_type r.manufacturer (parseCount r.registrations))

/-- View of a normalized row as a raw row (what re-running `clean_data`
on its own output feeds through the parsing stage). -/
def toRaw (r : Record) : RawRecord :=
  { date := .valid r.date
    vehicle_type := r.vehicle_type
    manufacturer := r.manufacturer
    registrations := .value r.registrations }

/-- Ascending-by-date order used by `sort_values('date')`. -/
def recDateLe (a b : Record) : Prop := dateIdx a.date ≤ dateIdx b.date

instance : DecidableRel recDateLe := fun a b =>
  inferInstanceAs (Decidable (dateIdx a.date ≤ dateIdx b.date))

instance : IsTotal Record recDateLe := ⟨fun a b => Int.le_total (dateIdx a.date) (dateIdx b.date)⟩

instance : IsTrans Record recDateLe := ⟨fun _ _ _ h h' => le_trans h h'⟩

/-- `DataProcessor.clean_data`: `None` for absent/empty input, otherwise
coerce dates (dropping `NaT` rows), coerce counts (filling with 0),
attach the derived calendar columns and sort by date.

The date sort (`sort_values('date')`, default unstable quicksort) is
modelled by a stable insertion sort; the relative order of equal-date
rows in the real program is unspecified, so the theorems below claim
only order-insensitive facts about the sorted output (membership,
length, permutation, date-sortedness), never the relative order of
equal-date rows. -/
def clean_data (l : List RawRecord) : Option (List Record) :=
  if l.isEmpty then none
  else some (List.insertionSort recDateLe (l.filterMap parseRow))

/-- The columns of a normalized frame (`self.df.columns`). -/
def dfColumns : List String :=
  ["date", "vehicle_type", "manufacturer", "registrations",
   "year", "quarter", "month", "month_name", "year_quarter"]

/-- Rendering of a date used as a grouping key (injective; only the two
categorical columns' ordering is relied on by any theorem below). -/
def dateRender (d : Date) : String :=
  toString d.year ++ "-" ++ toString d.month ++ "-" ++ toString d.day

/-- The value of column `c` in row `r`, as a grouping key.  Non-string
columns group by their (injective) decimal rendering, which induces the
same partition as the underlying values. -/
def colValue (r : Record) (c : String) : String :=
  if c = "date" then dateRender r.date
  else if c = "vehicle_type" then r.vehicle_type
  else if c = "manufacturer" then r.manufacturer
  else if c = "registrations" then toString r.registrations
  else if c = "year" then toString r.year
  else if c = "quarter" then toString r.quarter
  else if c = "month" then toString r.month
  else if c = "month_name" then r.month_name
  else r.year_quarter

/-- Sum of the `registrations` column of normalized rows. -/
def sumReg (l : List Record) : Int := (l.map (·.registrations)).sum

/-- Descending-by-total order used by
`sort_values('registrations', ascending=False)` on the grouped totals. -/
def pairDescLe (a b : String × Int) : Prop := b.2 ≤ a.2

instance : DecidableRel pairDescLe := fun a b => inferInstanceAs (Decidable (b.2 ≤ a.2))

instance : IsTotal (String × Int) pairDescLe := ⟨fun a b => Int.le_total b.2 a.2⟩

instance : IsTrans (String × Int) pairDescLe := ⟨fun _ _ _ h h' => le_trans h' h⟩

/-- The distinct values of column `c`, in the ascending order produced by
`groupby(c)` (group keys are sorted ascending). -/
def groupKeys (df : List Record) (c : String) : List String :=
  List.insertionSort strLe ((df.map (fun r => colValue r c)).dedup)

/-- Total of column `registrations` within the group of rows whose
column `c` equals `k`. -/
def groupTotal (df : List Record) (c : String) (k : String) : Int :=
  sumReg (df.filter (fun r => decide (colValue r c = k)))

/-- `groupby(by)['registrations'].sum()` followed by
`sort_values('registrations', ascending=False)`.

The descending sort is modelled by a stable insertion sort.  This is
exact when there are at most 16 groups (numpy's quicksort runs an
insertion sort on ranges of at most `SMALL_QUICKSORT + 1 = 16`
elements, and pandas' descending path — reverse, stable ascending
argsort, reverse — is then stable); with more groups the real tie order
is unspecified, so theorems about equal-total tie order carry an
explicit `≤ 16` group-count hypothesis (see `npyAargsort` /
`realBreakdown` for the faithful beyond-16 model). -/
def breakdownCore (df : List Record) (c : String) : List (String × Int) :=
  List.insertionSort pairDescLe ((groupKeys df c).map (fun k => (k, groupTotal df c k)))

/-- `DataProcessor.get_breakdown`: empty frame or unknown column give an
empty frame, otherwise the sorted grouped totals. -/
def get_breakdown (df : List Record) (c : String) : List (String × Int) :=
  if df.isEmpty ∨ c ∉ dfColumns then [] else breakdownCore df c

/-- Ascending order on the timestamps themselves (for the pivot index). -/
def dateLe (a b : Date) : Prop := dateIdx a ≤ dateIdx b

instance : DecidableRel dateLe := fun a b => inferInstanceAs (Decidable (dateIdx a ≤ dateIdx b))

instance : IsTotal Date dateLe := ⟨fun a b => Int.le_total (dateIdx a) (dateIdx b)⟩

instance : IsTrans Date dateLe := ⟨fun _ _ _ h h' => le_trans h h'⟩

/-- The distinct timestamps of the frame, ascending (the index of the
`groupby(['date', group_by]) ... unstack()` pivot). -/
def dateKeys (df : List Record) : List Date :=
  List.insertionSort dateLe ((df.map (·.date)).dedup)

/-- Total of `registrations` at one `(timestamp, category)` cell of the
trends pivot; an empty cell is the `fillna(0)` zero. -/
def cellTotal (df : List Record) (c : String) (v : String) (t : Date) : Int :=
  sumReg (df.filter (fun r => decide (r.date = t ∧ colValue r c = v)))

/-- The trend series of one category value: one entry per distinct
timestamp of the whole frame (dense pivot). -/
def trendSeries (df : List Record) (c : String) (v : String) : List (Date × Int) :=
  (dateKeys df).map (fun t => (t, cellTotal df c v t))

/-- `DataProcessor.get_trends`: empty frame or unknown column give an
empty dictionary; otherwise one dense series per distinct value of the
grouping column (`groupby(['date', group_by]).sum().unstack().fillna(0)`). -/
def get_trends (df : List Record) (c : String) : List (String × List (Date × Int)) :=
  if df.isEmpty ∨ c ∉ dfColumns then []
  else (groupKeys df c).map (fun v => (v, trendSeries df c v))

/-- Resampling frequency (`'M'` or `'Q'`). -/
inductive Freq where
  | M
  | Q
deriving DecidableEq, Repr

/-- Linearised month number of a date (bucket key of `resample('M')`). -/
def monthIdx (d : Date) : Int := d.year * 12 + ((d.month : Int) - 1)

/-- Linearised quarter number of a date (bucket key of `resample('Q')`). -/
def quarterIdx (d : Date) : Int := d.year * 4 + ((quarterOf d.month : Int) - 1)

/-- Bucket key function of a resampling frequency. -/
def freqIdx : Freq → Date → Int
  | .M => monthIdx
  | .Q => quarterIdx

/-- The (dense) list of bucket keys of `resample`: every period from the
earliest to the latest key present in the frame, in order. -/
def resampleKeys (key : Date → Int) (df : List Record) : List Int :=
  match df with
  | [] => []
  | r :: t =>
    let lo := t.foldl (fun a x => min a (key x.date)) (key r.date)
    let hi := t.foldl (fun a x => max a (key x.date)) (key r.date)
    (List.range (hi - lo + 1).toNat).map (fun i : Nat => lo + (i : Int))

/-- One output row of `get_time_series`. -/
structure TSBucket where
  bucketIdx : Int
  total : Int
  year : Int
  label : String
deriving DecidableEq, Repr

/-- Decorate a bucket with its calendar fields and label (month
abbreviation for `'M'`, `"YYYY Q#"` for `'Q'`). -/
def mkBucket (f : Freq) (m : Int) (tot : Int) : TSBucket :=
  match f with
  | .M =>
    let y := m.fdiv 12
    let mo := (m - 12 * y).toNat + 1
    { bucketIdx := m, total := tot, year := y, label := monthAbbrev mo }
  | .Q =>
    let y := m.fdiv 4
    let q := (m - 4 * y).toNat + 1
    { bucketIdx := m, total := tot, year := y, label := toString y ++ " Q" ++ toString q }

/-- `DataProcessor.get_time_series`: sum `registrations` within each
calendar bucket of the requested frequency (empty input gives an empty
frame). -/
def get_time_series (df : List Record) (f : Freq) : List TSBucket :=
  if df.isEmpty then []
  else (resampleKeys (freqIdx f) df).map (fun m =>
    mkBucket f m (sumReg (df.filter (fun r => decide (freqIdx f r.date = m)))))

/-- The dictionary returned by `DataProcessor.calculate_metrics`; absent
keys are `none`. -/
structure Metrics where
  total_registrations : Option Int
  date_range : Option (Date × Date)
  yoy_growth : Option Rat
  qoq_growth : Option Rat
  top_manufacturers : Option (List (String × Int))
  vehicle_type_distribution : Option (List (String × Int))
deriving DecidableEq, Repr

/-- The empty dictionary (`{}`). -/
def emptyMetrics : Metrics :=
  { total_registrations := none
    date_range := none
    yoy_growth := none
    qoq_growth := none
    top_manufacturers := none
    vehicle_type_distribution := none }

/-- Earliest date of a non-empty frame (helper for `date_range`). -/
def minDateOf : List Record → Date
  | [] => ⟨0, 1, 1⟩
  | r :: t => t.foldl (fun a x => if dateIdx x.date < dateIdx a then x.date else a) r.date

/-- Latest date of a non-empty frame (helper for `date_range`). -/
def maxDateOf : List Record → Date
  | [] => ⟨0, 1, 1⟩
  | r :: t => t.foldl (fun a x => if dateIdx a < dateIdx x.date then x.date else a) r.date

/-- The YoY part of `calculate_metrics`: anchored at `max(self.df['year'])`
(the data's own latest year, not an as-of parameter); the growth key is
only written when more than one distinct year is present, the previous
year has rows, and the previous total is positive; rounded to 2 decimal
places. -/
def metricsYoy (df : List Record) : Option Rat :=
  match df.map (·.year) with
  | [] => none
  | y0 :: ys =>
    if ((y0 :: ys).dedup.length > 1) then
      let cy := ys.foldl max y0
      let py := cy - 1
      let curr := df.filter (fun r => decide (r.year = cy))
      let prev := df.filter (fun r => decide (r.year = py))
      if prev.isEmpty then none
      else
        let ct := sumReg curr
        let pt := sumReg prev
        if 0 < pt then some (pyRound 2 (Rat.divInt ((ct - pt) * 100) pt)) else none
    else none

/-- The QoQ part of `calculate_metrics`: the two lexicographically last
`year_quarter` labels present in the data (`sorted(unique)[-1]` versus
`[-2]`), regardless of calendar adjacency; the growth key is only
written when the previous total is positive; rounded to 2 decimals. -/
def metricsQoq (df : List Record) : Option Rat :=
  let yqs := (df.map (·.year_quarter)).dedup
  if yqs.length > 1 then
    match (List.insertionSort strLe yqs).reverse with
    | cq :: pq :: _ =>
      let curr := df.filter (fun r => decide (r.year_quarter = cq))
      let prev := df.filter (fun r => decide (r.year_quarter = pq))
      let ct := sumReg curr
      let pt := sumReg prev
      if 0 < pt then some (pyRound 2 (Rat.divInt ((ct - pt) * 100) pt)) else none
    | _ => none
  else none

/-- `DataProcessor.calculate_metrics`: the empty dictionary on empty
input, otherwise total, date range, the two optional growth figures and
the two categorical distributions. -/
def calculate_metrics (df : List Record) : Metrics :=
  if df.isEmpty then emptyMetrics
  else
    { total_registrations := some (sumReg df)
      date_range := some (minDateOf df, maxDateOf df)
      yoy_growth := metricsYoy df
      qoq_growth := metricsQoq df
      top_manufacturers := some ((breakdownCore df "manufacturer").take 5)
      vehicle_type_distribution := some (breakdownCore df "vehicle_type") }

/-- The breakdown output order stated by the spec: strictly descending
total, ties in ascending categorical order. -/
def bdLex (a b : String × Int) : Prop := b.2 < a.2 ∨ (a.2 = b.2 ∧ strLt a.1 b.1)

instance : DecidableRel bdLex := fun a b =>
  inferInstanceAs (Decidable (b.2 < a.2 ∨ (a.2 = b.2 ∧ strLt a.1 b.1)))

/-! ## Concrete data used by witnesses and counterexamples -/

/-- A single-row frame whose previous year is empty (C1 witness). -/
def wRowsC1 : List Row := [⟨⟨2024, 3, 1⟩, "2W", "Hero", 100⟩]

/-- Rows in Q4 2023 and Q1 2024 (C2 witness). -/
def wRowsC2 : List Row :=
  [⟨⟨2023, 11, 20⟩, "2W", "Hero", 100⟩, ⟨⟨2024, 1, 15⟩, "4W", "Tata", 150⟩]

/-- 100 in 2023 versus 150 in 2024 (C3 witness, +50%). -/
def wRowsC3a : List Row :=
  [⟨⟨2023, 3, 1⟩, "2W", "Hero", 100⟩, ⟨⟨2024, 3, 1⟩, "2W", "Hero", 150⟩]

/-- 100 in 2023 versus 80 in 2024 (C3 witness, −20%). -/
def wRowsC3b : List Row :=
  [⟨⟨2023, 3, 1⟩, "2W", "Hero", 100⟩, ⟨⟨2024, 3, 1⟩, "2W", "Hero", 80⟩]

/-- 100 in 2020 versus 150 in 2021 (C4 witness). -/
def wRowsC4 : List Row :=
  [⟨⟨2020, 5, 10⟩, "2W", "Hero", 100⟩, ⟨⟨2021, 5, 10⟩, "2W", "Hero", 150⟩]

/-- Previous year present with total 0 (C1 counterexample input). -/
def cexDfC1 : List Record :=
  [deriveRecord ⟨2023, 5, 10⟩ "2W" "Hero" 0, deriveRecord ⟨2024, 5, 10⟩ "2W" "Hero" 150]

/-- Rows only in Q1 2023 and Q3 2023 — the calendar-preceding quarter of
Q3 is empty (C2 counterexample input). -/
def cexDfC2 : List Record :=
  [deriveRecord ⟨2023, 2, 10⟩ "2W" "Hero" 100, deriveRecord ⟨2023, 8, 10⟩ "2W" "Hero" 150]

/-- Totals 30000 (2023) and 10001 (2024): growth −66.663…%, where one- and
two-decimal rounding differ (C3 counterexample input). -/
def cexDfC3 : List Record :=
  [deriveRecord ⟨2023, 5, 10⟩ "2W" "Hero" 30000, deriveRecord ⟨2024, 5, 10⟩ "2W" "Hero" 10001]

/-- Data only in 2020/2021, far from any 2024 as-of date (C4
counterexample input). -/
def cexDfC4 : List Record :=
  [deriveRecord ⟨2020, 5, 10⟩ "2W" "Hero" 100, deriveRecord ⟨2021, 5, 10⟩ "2W" "Hero" 150]

/-- A raw row with a valid date and a parseable negative count (C5
counterexample input). -/
def rawNegRow : RawRecord := ⟨.valid ⟨2023, 5, 10⟩, "2W", "Hero", .value (-5)⟩

/-- A raw row whose date cannot be parsed (C10 counterexample input). -/
def rawBadDateRow : RawRecord := ⟨.invalid, "2W", "Hero", .value 5⟩

/-- Raw rows exercising the count-repair rules (C5 witness input). -/
def wRawRows : List RawRecord :=
  [⟨.valid ⟨2023, 5, 10⟩, "2W", "Hero", .missing⟩,
   ⟨.valid ⟨2023, 6, 10⟩, "4W", "Tata", .unparseable⟩,
   ⟨.invalid, "3W", "Bajaj", .value 7⟩,
   ⟨.valid ⟨2023, 4, 10⟩, "2W", "Honda", .value 3⟩]

/-- Normalized rows where the vehicle type `"2W"` has no record at the
second timestamp but `"4W"` does (C6 witness input). -/
def wTrendDf : List Record :=
  [deriveRecord ⟨2023, 1, 15⟩ "2W" "Hero" 100, deriveRecord ⟨2023, 2, 15⟩ "4W" "Tata" 50]

/-! ## The real `kind='quicksort'` sort of `sort_values`

`sort_values` dispatches to numpy's `aquicksort` (argsort variant of
`npysort/quicksort.c.src`): an introsort with median-of-3 pivoting, an
explicit partition stack, insertion sort on ranges of at most
`SMALL_QUICKSORT = 15` + 1 elements, and a heapsort fallback when a
depth limit of `2 * msb(n)` partitions is exhausted.  The embedding
below transcribes that routine; the index array `tosort` is a
`List Nat`, the pointers `pl`, `pr`, `pi`, `pj` become indices, and the
loops are fuelled (the fuel is ample for every evaluated input; the
unmodelled heapsort fallback and fuel exhaustion yield `none`). -/

/-- `npy_get_msb`: position of the most significant bit. -/
def msbAux : Nat → Nat → Nat
  | 0, _ => 0
  | fuel + 1, n => if n ≤ 1 then 0 else msbAux fuel (n / 2) + 1

/-- `npy_get_msb n` (floor of the base-2 logarithm). -/
def natMsb (n : Nat) : Nat := msbAux n n

/-- `INTP_SWAP(*pi, *pj)` on the index array. -/
def idxSwap (t : List Nat) (i j : Nat) : List Nat :=
  let a := t.getD i 0
  let b := t.getD j 0
  (t.set i b).set j a

/-- `v[tosort[i]]`: the key the argsort compares at position `i`. -/
def valAt (v : List Int) (t : List Nat) (i : Nat) : Int := v.getD (t.getD i 0) 0

/-- `do ++pi; while (v[*pi] < vp)`. -/
def scanRight (v : List Int) (vp : Int) (t : List Nat) : Nat → Nat → Nat
  | 0, pi => pi
  | fuel + 1, pi =>
    let pi' := pi + 1
    if valAt v t pi' < vp then scanRight v vp t fuel pi' else pi'

/-- `do --pj; while (vp < v[*pj])`. -/
def scanLeft (v : List Int) (vp : Int) (t : List Nat) : Nat → Nat → Nat
  | 0, pj => pj
  | fuel + 1, pj =>
    let pj' := pj - 1
    if vp < valAt v t pj' then scanLeft v vp t fuel pj' else pj'

/-- The Hoare partition loop: scan, swap while `pi < pj`, return the
final index array and crossing point `pi`. -/
def hoareLoop (v : List Int) (vp : Int) : Nat → List Nat → Nat → Nat → List Nat × Nat
  | 0, t, pi, _ => (t, pi)
  | fuel + 1, t, pi, pj =>
    let pi' := scanRight v vp t (t.length + 1) pi
    let pj' := scanLeft v vp t (t.length + 1) pj
    if pj' ≤ pi' then (t, pi')
    else hoareLoop v vp fuel (idxSwap t pi' pj') pi' pj'

/-- The shifting inner loop of the insertion sort:
`while (pj > pl && vp < v[*pk]) *pj-- = *pk--`. -/
def ashift (v : List Int) (vp : Int) (pl : Nat) : Nat → List Nat → Nat → List Nat × Nat
  | 0, t, pj => (t, pj)
  | fuel + 1, t, pj =>
    if pl < pj ∧ vp < valAt v t (pj - 1) then
      ashift v vp pl fuel (t.set pj (t.getD (pj - 1) 0)) (pj - 1)
    else (t, pj)

/-- The insertion sort of `aquicksort` over positions `pl..pr` of the
index array (`for (pi = pl + 1; pi <= pr; ++pi) …`). -/
def ainsortFrom (v : List Int) (pl pr : Nat) : Nat → List Nat → Nat → List Nat
  | 0, t, _ => t
  | fuel + 1, t, pi =>
    if pi > pr then t
    else
      let vi := t.getD pi 0
      let vp := v.getD vi 0
      let s := ashift v vp pl (t.length + 1) t pi
      ainsortFrom v pl pr fuel (s.1.set s.2 vi) (pi + 1)

/-- The outer loop of `aquicksort`: partition while the range exceeds
`SMALL_QUICKSORT = 15` elements (median-of-3 pivot in `pm`, pivot parked
at `pr-1`, Hoare loop, push the larger side), insertion-sort small
ranges, pop the stack.  `none` models the unembedded heapsort fallback
(depth limit hit) or fuel exhaustion. -/
def npyAqsortOuter (v : List Int) :
    Nat → List Nat → Nat → Nat → Int → List (Nat × Nat) → Option (List Nat)
  | 0, _, _, _, _, _ => none
  | fuel + 1, t, pl, pr, depth, stack =>
    if pr - pl > 15 then
      if depth < 0 then none
      else
        let pm := pl + (pr - pl) / 2
        let t1 := if valAt v t pm < valAt v t pl then idxSwap t pm pl else t
        let t2 := if valAt v t1 pr < valAt v t1 pm then idxSwap t1 pr pm else t1
        let t3 := if valAt v t2 pm < valAt v t2 pl then idxSwap t2 pm pl else t2
        let vp := valAt v t3 pm
        let t4 := idxSwap t3 pm (pr - 1)
        let s := hoareLoop v vp (t.length + 2) t4 pl (pr - 1)
        let t6 := idxSwap s.1 s.2 (pr - 1)
        if s.2 - pl < pr - s.2 then
          npyAqsortOuter v fuel t6 pl (s.2 - 1) (depth - 1) ((s.2 + 1, pr) :: stack)
        else
          npyAqsortOuter v fuel t6 (s.2 + 1) pr (depth - 1) ((pl, s.2 - 1) :: stack)
    else
      let t' := ainsortFrom v pl pr (t.length + 2) t (pl + 1)
      match stack with
      | [] => some t'
      | (npl, npr) :: rest => npyAqsortOuter v fuel t' npl npr depth rest

/-- `ndarray.argsort(kind='quicksort')` on an int64 array. -/
def npyAargsort (v : List Int) : Option (List Nat) :=
  let n := v.length
  if n = 0 then some []
  else npyAqsortOuter v ((n + 1) * 4) (List.range n) 0 (n - 1) ((natMsb n : Int) * 2) []

/-- Pandas `nargsort(values, kind='quicksort', ascending=False)` without
NaNs: reverse the values, argsort ascending, map through the reversed
index array, reverse the result. -/
def pandasDescIndexer (vals : List Int) : Option (List Nat) :=
  let n := vals.length
  (npyAargsort vals.reverse).map (fun s => (s.map (fun i => n - 1 - i)).reverse)

/-- `get_breakdown` with the real descending sort of `sort_values`
(`none` when the sort would reach the unmodelled heapsort fallback):
the grouped totals in ascending key order, rearranged by
`pandasDescIndexer`. -/
def realBreakdown (df : List Record) (c : String) : Option (List (String × Int)) :=
  let keys := groupKeys df c
  let tots := keys.map (fun k => groupTotal df c k)
  (pandasDescIndexer tots).map (fun idx =>
    idx.map (fun i => (keys.getD i "", tots.getD i 0)))

/-- Seventeen manufacturers with identical totals — one more group than
numpy's insertion-sort threshold (C7 counterexample input). -/
def cexDf17 : List Record :=
  (["m01", "m02", "m03", "m04", "m05", "m06", "m07", "m08", "m09",
    "m10", "m11", "m12", "m13", "m14", "m15", "m16", "m17"]).map
    (fun nm => deriveRecord ⟨2023, 1, 1⟩ "2W" nm 5)

/-! ## Helper lemmas -/

/-- `Rat.divInt ((c - p) * 100) p` is the textbook growth expression. -/
theorem divInt_growth_eq (c p : Int) (hp : p ≠ 0) :
    Rat.divInt ((c - p) * 100) p = ((c : Rat) - (p : Rat)) / (p : Rat) * 100 := by
  rw [Rat.divInt_eq_div]
  push_cast
  field_simp

/-- `growthRate` computes the rounded textbook growth expression. -/
theorem growthRate_eq_formula (c p : Int) (hp : p ≠ 0) :
    growthRate c p = pyRound 1 (((c : Rat) - (p : Rat)) / (p : Rat) * 100) := by
  rw [growthRate, if_neg hp, divInt_growth_eq c p hp]

/-! ## C1 — zero-comparison policy of the growth metric -/

/-- C1 (amended): for the dashboard growth metric `calculate_growth`, an
empty comparison period or a comparison total of exactly zero yields
exactly `0.0` (never infinity, `None`, or an error), for both period
kinds; the result is the (always present) return value.
(`DataProcessor.calculate_metrics` instead omits its growth keys in
those situations — see the counterexample.) -/
theorem growth_zero_when_no_comparison (df : List Row) (e : Date) (p : Period)
    (h : (comparisonSlice df e p).isEmpty = true ∨ sumRow (comparisonSlice df e p) = 0) :
    calculate_growth df e p = 0 := by
  rcases h with h | h <;> simp [calculate_growth, growthRate, h]

/-- Witness for C1: a frame with no previous-year rows yields growth 0. -/
theorem growth_zero_when_no_comparison_witness :
    (comparisonSlice wRowsC1 ⟨2024, 6, 1⟩ .yoy).isEmpty = true ∧
    calculate_growth wRowsC1 ⟨2024, 6, 1⟩ .yoy = 0 :=
  ⟨by decide, growth_zero_when_no_comparison _ _ _ (Or.inl (by decide))⟩

/-- C1 counterexample: in `calculate_metrics`, a comparison year that is
present with total 0 produces **no** `yoy_growth` entry at all, rather
than a present `0.0`. -/
theorem metrics_omits_growth_on_zero_comparison :
    sumReg (cexDfC1.filter (fun r => decide (r.year = 2023))) = 0 ∧
    (calculate_metrics cexDfC1).yoy_growth = none := by
  exact ⟨by decide, by decide⟩

/-! ## C2 — quarter-over-quarter period selection -/

/-- C2 (amended): the dashboard growth metric's QoQ comparison period is
exactly the spec's "immediately preceding calendar quarter" of the as-of
(year, quarter), with Q1 of year Y wrapping to Q4 of year Y−1; the
current period is the as-of (year, quarter) itself.
(`DataProcessor.calculate_metrics` instead compares the two latest
`year_quarter` labels present in the data — see the counterexample.) -/
theorem qoq_compares_preceding_quarter (df : List Row) (e : Date) :
    comparisonSlice df e .qoq = df.filter (fun r =>
      decide (quarterOf r.date.month = (specPrevQuarter e.year (quarterOf e.month)).2 ∧
        r.date.year = (specPrevQuarter e.year (quarterOf e.month)).1)) ∧
    currentSlice df e .qoq = df.filter (fun r =>
      decide (quarterOf r.date.month = quarterOf e.month ∧ r.date.year = e.year)) ∧
    (quarterOf e.month = 1 →
      specPrevQuarter e.year (quarterOf e.month) = (e.year - 1, 4)) := by
  exact ⟨rfl, rfl, fun h => by simp [specPrevQuarter, h]⟩

/-- Witness for C2: as-of 2024-02-15 (Q1 2024) compares against Q4 2023. -/
theorem qoq_compares_preceding_quarter_witness :
    specPrevQuarter (2024 : Int) (quarterOf 2) = (2023, 4) ∧
    comparisonSlice wRowsC2 ⟨2024, 2, 15⟩ .qoq = [⟨⟨2023, 11, 20⟩, "2W", "Hero", 100⟩] := by
  have h := qoq_compares_preceding_quarter wRowsC2 ⟨2024, 2, 15⟩
  refine ⟨h.2.2 (by decide), ?_⟩
  rw [h.1]
  decide

/-- C2 counterexample: with data only in Q1 2023 and Q3 2023,
`calculate_metrics` reports a QoQ growth of 50% — computed against
Q1 2023, although the calendar-preceding quarter (Q2 2023) is empty (a
spec-conforming QoQ at any as-of date in Q3 2023 would yield 0.0). -/
theorem metrics_qoq_compares_nonadjacent_quarters :
    (calculate_metrics cexDfC2).qoq_growth = some 50 ∧
    cexDfC2.filter (fun r => decide (r.year = 2023 ∧ r.quarter = 2)) = [] := by
  exact ⟨by decide, by decide⟩

/-! ## C3 — the growth formula and its rounding -/

/-- C3 (amended): whenever the comparison total is positive, the
dashboard growth metric equals
`((current_total - comparison_total) / comparison_total) * 100` rounded
to one decimal place.  (`DataProcessor.calculate_metrics` rounds to two
decimal places instead — see the counterexample.) -/
theorem growth_formula_positive (df : List Row) (e : Date) (p : Period)
    (h : 0 < sumRow (comparisonSlice df e p)) :
    calculate_growth df e p =
      pyRound 1 (((sumRow (currentSlice df e p) : Rat) -
          (sumRow (comparisonSlice df e p) : Rat)) /
        (sumRow (comparisonSlice df e p) : Rat) * 100) := by
  have hne : comparisonSlice df e p ≠ [] := by
    intro hnil
    rw [hnil] at h
    simp [sumRow] at h
  have hdf : df ≠ [] := by
    intro hnil
    apply hne
    cases p <;> simp [comparisonSlice, hnil]
  rw [calculate_growth, if_neg (by simpa [List.isEmpty_iff] using hdf),
    if_neg (by simpa [List.isEmpty_iff] using hne)]
  exact growthRate_eq_formula _ _ (by omega)

/-- Witness for C3: totals 150 vs 100 give +50.0, totals 80 vs 100 give
−20.0. -/
theorem growth_formula_positive_witness :
    calculate_growth wRowsC3a ⟨2024, 6, 1⟩ .yoy = 50 ∧
    calculate_growth wRowsC3b ⟨2024, 6, 1⟩ .yoy = -20 := by
  constructor
  · rw [growth_formula_positive wRowsC3a ⟨2024, 6, 1⟩ .yoy (by decide),
      ← growthRate_eq_formula _ _ (by decide)]
    decide
  · rw [growth_formula_positive wRowsC3b ⟨2024, 6, 1⟩ .yoy (by decide),
      ← growthRate_eq_formula _ _ (by decide)]
    decide

/-- C3 counterexample: totals 10001 (current year) vs 30000 (previous)
give −66.663…%.  `calculate_metrics` stores −66.66 (two decimals), which
differs from the claimed one-decimal rounding −66.7. -/
theorem metrics_growth_rounded_to_two_decimals :
    (calculate_metrics cexDfC3).yoy_growth = some (Rat.divInt (-3333) 50) ∧
    pyRound 1 (Rat.divInt ((10001 - 30000) * 100) 30000) = Rat.divInt (-667) 10 ∧
    Rat.divInt (-3333) 50 ≠ Rat.divInt (-667) 10 := by
  exact ⟨by decide, by decide, by decide⟩

/-! ## C4 — the as-of anchor of the year-over-year metric -/

/-- C4 (amended): the dashboard growth metric's YoY periods are exactly
the rows of the as-of (caller-selected `end_date`) year and of the year
before it, and the result is a pure function of the record set and that
parameter (no clock access; the data's own extent plays no role).
(`DataProcessor.calculate_metrics` instead anchors on `max(df['year'])`
— see the counterexample.) -/
theorem yoy_periods_from_asof (df : List Row) (e : Date) (h : df.isEmpty = false) :
    calculate_growth df e .yoy =
      (if (comparisonSlice df e .yoy).isEmpty then 0
       else growthRate (sumRow (currentSlice df e .yoy))
         (sumRow (comparisonSlice df e .yoy))) ∧
    currentSlice df e .yoy = df.filter (fun r => decide (r.date.year = e.year)) ∧
    comparisonSlice df e .yoy = df.filter (fun r => decide (r.date.year = e.year - 1)) := by
  refine ⟨?_, rfl, rfl⟩
  rw [calculate_growth, if_neg (by simp [h])]

/-- Witness for C4: with the as-of year 2021 the periods are the 2021 and
2020 rows, and the growth is +50.0. -/
theorem yoy_periods_from_asof_witness :
    calculate_growth wRowsC4 ⟨2021, 12, 31⟩ .yoy = 50 ∧
    currentSlice wRowsC4 ⟨2021, 12, 31⟩ .yoy = [⟨⟨2021, 5, 10⟩, "2W", "Hero", 150⟩] := by
  have h := yoy_periods_from_asof wRowsC4 ⟨2021, 12, 31⟩ (by decide)
  refine ⟨?_, ?_⟩
  · rw [h.1]
    decide
  · rw [h.2.1]
    decide

/-- C4 counterexample: with data only in 2020/2021, `calculate_metrics`
reports YoY +50% no matter what window end the caller selected — it has
substituted the data's own maximum year 2021; the claimed periods for an
as-of date in 2024 (years 2024 and 2023) are both empty. -/
theorem metrics_anchors_on_data_max_year :
    (calculate_metrics cexDfC4).yoy_growth = some 50 ∧
    cexDfC4.filter (fun r => decide (r.year = 2024)) = [] ∧
    cexDfC4.filter (fun r => decide (r.year = 2023)) = [] := by
  exact ⟨by decide, by decide, by decide⟩

/-! ## C9 — totality on degenerate input -/

/-- C9: every Aggregator operation is total on degenerate input: the
metrics summary of an empty frame is the empty dictionary, time-series
resampling, breakdown and trend extraction of an empty frame are empty,
and an unrecognized grouping column yields an empty breakdown/trend set
instead of an error. -/
theorem aggregator_total_on_degenerate_input :
    calculate_metrics [] = emptyMetrics ∧
    (∀ f, get_time_series [] f = []) ∧
    (∀ c, get_breakdown [] c = []) ∧
    (∀ c, get_trends [] c = []) ∧
    (∀ (df : List Record) (c : String), c ∉ dfColumns → get_breakdown df c = []) ∧
    (∀ (df : List Record) (c : String), c ∉ dfColumns → get_trends df c = []) := by
  refine ⟨rfl, fun f => rfl, fun c => ?_, fun c => ?_,
    fun df c h => ?_, fun df c h => ?_⟩
  · simp [get_breakdown]
  · simp [get_trends]
  · rw [get_breakdown, if_pos (Or.inr h)]
  · rw [get_trends, if_pos (Or.inr h)]

/-- Witness for C9 at concrete degenerate inputs. -/
theorem aggregator_total_witness :
    calculate_metrics [] = emptyMetrics ∧
    get_breakdown wTrendDf "color" = [] ∧
    get_trends wTrendDf "color" = [] :=
  ⟨aggregator_total_on_degenerate_input.1,
   aggregator_total_on_degenerate_input.2.2.2.2.1 wTrendDf "color" (by decide),
   aggregator_total_on_degenerate_input.2.2.2.2.2 wTrendDf "color" (by decide)⟩

/-! ## C5 — count normalization policy of `clean_data` -/

/-- The parsing stage keeps exactly the rows with a parseable date. -/
theorem filterMap_parseRow_length (l : List RawRecord) :
    (l.filterMap parseRow).length =
      (l.filter (fun raw => decide (raw.date ≠ RawDate.invalid))).length := by
  induction l with
  | nil => rfl
  | cons a t ih =>
    cases ha : a.date <;>
      simp [parseRow, ha, List.filterMap_cons, List.filter_cons, ih]

/-- C5 (amended): after normalization, unparseable or missing counts
become 0 and their rows are retained; rows are dropped only for invalid
dates, never because of their count; and every normalized count equals
the parsed input integer, so all counts are non-negative whenever every
parseable input count is non-negative.  (A parseable **negative** count
passes through unchanged, so the unconditional `count >= 0` invariant
fails — see the counterexample.) -/
theorem clean_data_count_policy (l : List RawRecord) (out : List Record)
    (hcd : clean_data l = some out) :
    out.length = (l.filter (fun raw => decide (raw.date ≠ RawDate.invalid))).length ∧
    (∀ raw ∈ l, ∀ d, raw.date = RawDate.valid d →
      (raw.registrations = RawCount.missing ∨ raw.registrations = RawCount.unparseable) →
      deriveRecord d raw.vehicle_type raw.manufacturer 0 ∈ out) ∧
    ((∀ raw ∈ l, ∀ n, raw.registrations = RawCount.value n → 0 ≤ n) →
      ∀ r ∈ out, 0 ≤ r.registrations) := by
  rw [clean_data] at hcd
  split at hcd
  · exact absurd hcd (by simp)
  · have hout : List.insertionSort recDateLe (l.filterMap parseRow) = out :=
      Option.some.inj hcd
    refine ⟨?_, ?_, ?_⟩
    · rw [← hout, List.length_insertionSort, filterMap_parseRow_length]
    · intro raw hraw d hd hcount
      rw [← hout, List.mem_insertionSort]
      refine List.mem_filterMap.mpr ⟨raw, hraw, ?_⟩
      have hpc : parseCount raw.registrations = 0 := by
        rcases hcount with h | h <;> rw [h] <;> rfl
      rw [parseRow, hd, hpc]
    · intro hnn r hr
      rw [← hout, List.mem_insertionSort] at hr
      obtain ⟨raw, hraw, hpr⟩ := List.mem_filterMap.mp hr
      rw [parseRow] at hpr
      cases hd : raw.date with
      | invalid => rw [hd] at hpr; simp at hpr
      | valid d =>
        rw [hd] at hpr
        have hrec : deriveRecord d raw.vehicle_type raw.manufacturer
            (parseCount raw.registrations) = r := by
          simpa using hpr
        have hreg : r.registrations = parseCount raw.registrations := by
          rw [← hrec]
          rfl
        rw [hreg]
        cases hc : raw.registrations with
        | missing => rfl
        | unparseable => rfl
        | value n => exact hnn raw hraw n hc

/-- Witness for C5: a frame with missing/unparseable/valid counts and one
bad date keeps three rows, including the repaired zero-count row. -/
theorem clean_data_count_policy_witness :
    ((clean_data wRawRows).getD []).length = 3 ∧
    deriveRecord ⟨2023, 5, 10⟩ "2W" "Hero" 0 ∈ ((clean_data wRawRows).getD []) := by
  have hcd : clean_data wRawRows = some ((clean_data wRawRows).getD []) := by decide
  have h := clean_data_count_policy wRawRows _ hcd
  constructor
  · rw [h.1]
    decide
  · exact h.2.1 ⟨.valid ⟨2023, 5, 10⟩, "2W", "Hero", .missing⟩ (by decide)
      ⟨2023, 5, 10⟩ rfl (Or.inl rfl)

/-- C5 counterexample: a parseable negative count survives normalization
as a negative value — `count >= 0` does not hold unconditionally. -/
theorem clean_data_keeps_negative_count :
    clean_data [rawNegRow] = some [deriveRecord ⟨2023, 5, 10⟩ "2W" "Hero" (-5)] ∧
    (deriveRecord ⟨2023, 5, 10⟩ "2W" "Hero" (-5)).registrations < 0 := by
  exact ⟨by decide, by decide⟩

/-! ## C10 — idempotence of `clean_data` -/

/-- A row produced by the parsing stage re-parses to itself: its derived
columns are consistent with its date, and its count is already an
integer. -/
theorem parseRow_toRaw_of_mem_parse {l : List RawRecord} {r : Record}
    (h : r ∈ l.filterMap parseRow) : parseRow (toRaw r) = some r := by
  obtain ⟨raw, _, hpr⟩ := List.mem_filterMap.mp h
  rw [parseRow] at hpr
  cases hd : raw.date with
  | invalid => rw [hd] at hpr; simp at hpr
  | valid d =>
    rw [hd] at hpr
    have hrec : deriveRecord d raw.vehicle_type raw.manufacturer
        (parseCount raw.registrations) = r := by
      simpa using hpr
    rw [← hrec]
    rfl

/-- A `filterMap` whose function fixes every member is the identity. -/
theorem filterMap_fixes_of_forall {f : α → Option α} :
    ∀ {l : List α}, (∀ a ∈ l, f a = some a) → l.filterMap f = l := by
  intro l
  induction l with
  | nil => intro _; rfl
  | cons a t ih =>
    intro h
    rw [List.filterMap_cons, h a (List.mem_cons_self a t),
      ih (fun b hb => h b (List.mem_cons_of_mem a hb))]

/-- C10 (amended): re-running `clean_data` on a non-empty output
succeeds and returns a date-sorted permutation of that output — no row
is re-dropped, every row re-parses to itself (the derived
year/quarter/month columns re-derive to identical values and the count
is already an integer), and the result holds the same rows again.  The
relative order of equal-date rows is *not* asserted: the date sort
(numpy quicksort) is unstable, so a second sort may permute rows that
share a date.  (When a non-empty raw input loses *all* of its rows to
date parsing, the first pass returns an empty frame and the second pass
returns the `None` sentinel instead of that empty frame — see the
counterexample.) -/
theorem clean_data_idempotent_on_nonempty (l : List RawRecord) (out : List Record)
    (hcd : clean_data l = some out) (hne : out ≠ []) :
    (clean_data (out.map toRaw)).isSome = true ∧
    ((clean_data (out.map toRaw)).getD []).Perm out ∧
    ((clean_data (out.map toRaw)).getD []).Sorted recDateLe := by
  rw [clean_data] at hcd
  split at hcd
  · exact absurd hcd (by simp)
  · have hout : List.insertionSort recDateLe (l.filterMap parseRow) = out :=
      Option.some.inj hcd
    have hsorted : out.Sorted recDateLe := by
      rw [← hout]
      exact List.sorted_insertionSort recDateLe _
    have hfix : ∀ r ∈ out, parseRow (toRaw r) = some r := by
      intro r hr
      rw [← hout, List.mem_insertionSort] at hr
      exact parseRow_toRaw_of_mem_parse hr
    have heq : clean_data (out.map toRaw) = some out := by
      rw [clean_data, if_neg (by simp [hne]), List.filterMap_map]
      simp only [Function.comp_def]
      rw [filterMap_fixes_of_forall (fun r hr => hfix r hr),
        List.Sorted.insertionSort_eq hsorted]
    rw [heq]
    exact ⟨rfl, List.Perm.refl out, hsorted⟩

/-- Witness for C10: a second `clean_data` pass over the normalized
output of `wRawRows` succeeds and holds the same rows. -/
theorem clean_data_idempotent_witness :
    (clean_data (((clean_data wRawRows).getD []).map toRaw)).isSome = true ∧
    ((clean_data (((clean_data wRawRows).getD []).map toRaw)).getD []).Perm
      ((clean_data wRawRows).getD []) := by
  have hcd : clean_data wRawRows = some ((clean_data wRawRows).getD []) := by decide
  have h := clean_data_idempotent_on_nonempty wRawRows _ hcd (by decide)
  exact ⟨h.1, h.2.1⟩

/-- C10 counterexample: a non-empty raw input whose only row has an
unparseable date normalizes to the empty frame, but running `clean_data`
again on that output yields the `None` sentinel — not an identical
result. -/
theorem clean_data_second_pass_loses_empty :
    clean_data [rawBadDateRow] = some [] ∧
    clean_data (([] : List Record).map toRaw) = none ∧
    some ([] : List Record) ≠ none := by
  exact ⟨by decide, rfl, by decide⟩

/-! ## C6 — dense trend series -/

/-- C6: the trend set has one series per distinct value of the grouping
column, and each series has one entry per distinct timestamp of the
whole frame — a `(timestamp, category)` combination with no records
appears with total 0 rather than being omitted. -/
theorem trends_dense (df : List Record) (c : String) (v : String) (t : Date)
    (hdf : df ≠ []) (hc : c ∈ dfColumns)
    (hv : v ∈ (df.map (fun r => colValue r c)).dedup)
    (ht : t ∈ (df.map (·.date)).dedup) :
    (v, trendSeries df c v) ∈ get_trends df c ∧
    (t, cellTotal df c v t) ∈ trendSeries df c v ∧
    (df.filter (fun r => decide (r.date = t ∧ colValue r c = v)) = [] →
      cellTotal df c v t = 0) := by
  have hguard : ¬(df.isEmpty = true ∨ c ∉ dfColumns) := by
    rintro (h | h)
    · exact hdf (List.isEmpty_iff.mp h)
    · exact h hc
  have hv' : v ∈ groupKeys df c := by
    rw [groupKeys, List.mem_insertionSort]
    exact hv
  have ht' : t ∈ dateKeys df := by
    rw [dateKeys, List.mem_insertionSort]
    exact ht
  refine ⟨?_, ?_, ?_⟩
  · rw [get_trends, if_neg hguard]
    exact List.mem_map_of_mem _ hv'
  · rw [trendSeries]
    exact List.mem_map_of_mem _ ht'
  · intro h
    rw [cellTotal, h]
    rfl

/-- Witness for C6: `"2W"` has no record at 2023-02-15 (only `"4W"`
does), yet its trend series contains an entry there with total 0. -/
theorem trends_dense_witness :
    ("2W", trendSeries wTrendDf "vehicle_type" "2W") ∈ get_trends wTrendDf "vehicle_type" ∧
    ((⟨2023, 2, 15⟩, 0) : Date × Int) ∈ trendSeries wTrendDf "vehicle_type" "2W" ∧
    wTrendDf.filter (fun r =>
      decide (r.date = ⟨2023, 2, 15⟩ ∧ colValue r "vehicle_type" = "2W")) = [] := by
  have h := trends_dense wTrendDf "vehicle_type" "2W" ⟨2023, 2, 15⟩
    (by decide) (by decide) (by decide) (by decide)
  have hz : cellTotal wTrendDf "vehicle_type" "2W" ⟨2023, 2, 15⟩ = 0 := by decide
  exact ⟨h.1, hz ▸ h.2.1, by decide⟩

/-! ## C7 — breakdown ordering -/

/-- `strLtB` is irreflexive. -/
theorem strLtB_irrefl : ∀ l : List Char, strLtB l l = false := by
  intro l
  induction l with
  | nil => rfl
  | cons a as ih => simp [strLtB, ih]

/-- `strLtB` is transitive. -/
theorem strLtB_trans : ∀ l m k : List Char,
    strLtB l m = true → strLtB m k = true → strLtB l k = true := by
  intro l
  induction l with
  | nil =>
    intro m k h1 h2
    cases m with
    | nil => exact absurd h1 (by simp [strLtB])
    | cons b bs =>
      cases k with
      | nil => exact absurd h2 (by simp [strLtB])
      | cons c cs => simp [strLtB]
  | cons a as ih =>
    intro m k h1 h2
    cases m with
    | nil => exact absurd h1 (by simp [strLtB])
    | cons b bs =>
      cases k with
      | nil => exact absurd h2 (by simp [strLtB])
      | cons c cs =>
        simp only [strLtB] at h1 h2 ⊢
        split at h1
        · rename_i hab
          split at h2
          · rename_i hbc
            simp [Nat.lt_trans hab hbc]
          · split at h2
            · simp at h2
            · rename_i hbc hcb
              have hbceq : b.toNat = c.toNat := by omega
              simp [hbceq ▸ hab]
        · split at h1
          · simp at h1
          · rename_i hab hba
            have habeq : a.toNat = b.toNat := by omega
            split at h2
            · rename_i hbc
              simp [habeq ▸ hbc]
            · split at h2
              · simp at h2
              · rename_i hbc hcb
                have haceq : a.toNat = c.toNat := by omega
                simp only [haceq, Nat.lt_irrefl, if_false]
                exact ih bs cs h1 h2

/-- Two characters with equal code points are equal. -/
theorem char_eq_of_toNat_eq {a b : Char} (h : a.toNat = b.toNat) : a = b :=
  Char.ext (UInt32.toNat.inj h)

/-- `strLtB` is connected: incomparable char lists are equal. -/
theorem strLtB_eq_of_not_lt : ∀ l m : List Char,
    strLtB l m = false → strLtB m l = false → l = m := by
  intro l
  induction l with
  | nil =>
    intro m h1 _
    cases m with
    | nil => rfl
    | cons b bs => exact absurd h1 (by simp [strLtB])
  | cons a as ih =>
    intro m h1 h2
    cases m with
    | nil => exact absurd h2 (by simp [strLtB])
    | cons b bs =>
      simp only [strLtB] at h1 h2
      split at h1
      · simp at h1
      · split at h1
        · rename_i hab hba
          rw [if_pos hba] at h2
          exact absurd h2 (by simp)
        · rename_i hab hba
          have habeq : a.toNat = b.toNat := by omega
          have h2' : strLtB bs as = false := by
            simpa [habeq, Nat.lt_irrefl] using h2
          rw [char_eq_of_toNat_eq habeq, ih bs h1 h2']

/-- Totality of the string order. -/
theorem strLe_total (a b : String) : strLe a b ∨ strLe b a := by
  by_cases h : strLtB b.data a.data = false
  · exact Or.inl h
  · refine Or.inr ?_
    rw [strLe]
    rcases hb : strLtB a.data b.data with _ | _
    · rfl
    · rw [Bool.not_eq_false] at h
      have := strLtB_trans _ _ _ h hb
      rw [strLtB_irrefl] at this
      exact absurd this (by simp)

/-- Transitivity of the string order. -/
theorem strLe_trans (a b c : String) (h1 : strLe a b) (h2 : strLe b c) : strLe a c := by
  rw [strLe] at h1 h2 ⊢
  rcases hca : strLtB c.data a.data with _ | _
  · rfl
  · rcases hab : strLtB a.data b.data with _ | _
    · rw [strLtB_eq_of_not_lt _ _ hab h1] at hca
      rw [hca] at h2
      exact absurd h2 (by simp)
    · have := strLtB_trans _ _ _ hca hab
      rw [this] at h2
      exact absurd h2 (by simp)

/-- A weakly smaller, distinct string is strictly smaller. -/
theorem strLt_of_strLe_of_ne {a b : String} (hle : strLe a b) (hne : a ≠ b) :
    strLt a b := by
  rw [strLe] at hle
  rw [strLt]
  rcases hab : strLtB a.data b.data with _ | _
  · exact absurd (String.ext (strLtB_eq_of_not_lt _ _ hab hle)) hne
  · rfl

/-- The group keys of a breakdown are strictly ascending. -/
theorem groupKeys_pairwise_strLt (df : List Record) (c : String) :
    (groupKeys df c).Pairwise strLt := by
  haveI : IsTotal String strLe := ⟨strLe_total⟩
  haveI : IsTrans String strLe := ⟨strLe_trans⟩
  have hs : (groupKeys df c).Pairwise strLe := by
    rw [groupKeys]
    exact List.sorted_insertionSort strLe _
  have hn : (groupKeys df c).Nodup := by
    rw [groupKeys]
    exact (List.perm_insertionSort strLe _).nodup_iff.mpr (List.nodup_dedup _)
  exact (hs.and hn).imp (fun h => strLt_of_strLe_of_ne h.1 h.2)

/-- Stability of `orderedInsert` under the descending-total order: if the
list is already in the spec order `bdLex` and the inserted element is
strictly smaller (by key) than every member with the same total, the
result is in the spec order. -/
theorem orderedInsert_bdLex (x : String × Int) :
    ∀ m : List (String × Int), m.Pairwise bdLex →
      (∀ y ∈ m, x.2 = y.2 → strLt x.1 y.1) →
      (m.orderedInsert pairDescLe x).Pairwise bdLex := by
  intro m
  induction m with
  | nil => intro _ _; simp [List.orderedInsert]
  | cons y t ih =>
    intro hm hx
    rw [List.orderedInsert]
    by_cases hle : pairDescLe x y
    · rw [if_pos hle]
      have hy2 : y.2 ≤ x.2 := hle
      refine List.pairwise_cons.mpr ⟨?_, hm⟩
      intro z hz
      rcases List.mem_cons.mp hz with rfl | hz'
      · rcases lt_or_eq_of_le hy2 with h | h
        · exact Or.inl h
        · exact Or.inr ⟨h.symm, hx z (List.mem_cons_self _ _) h.symm⟩
      · have hyz := (List.pairwise_cons.mp hm).1 z hz'
        rcases hyz with h | h
        · rcases lt_or_eq_of_le hy2 with h' | h'
          · exact Or.inl (lt_trans h h')
          · exact Or.inl (h'.symm ▸ h)
        · rcases lt_or_eq_of_le hy2 with h' | h'
          · exact Or.inl (h.1 ▸ h')
          · refine Or.inr ⟨by omega, ?_⟩
            have hxy : strLt x.1 y.1 := hx y (List.mem_cons_self _ _) h'.symm
            exact strLtB_trans _ _ _ hxy h.2
    · rw [if_neg hle]
      have hxy : x.2 < y.2 := by
        have : ¬y.2 ≤ x.2 := hle
        omega
      refine List.pairwise_cons.mpr ⟨?_, ?_⟩
      · intro z hz
        rw [List.mem_orderedInsert] at hz
        rcases hz with rfl | hz'
        · exact Or.inl hxy
        · exact (List.pairwise_cons.mp hm).1 z hz'
      · exact ih (List.pairwise_cons.mp hm).2
          (fun z hz h2 => hx z (List.mem_cons_of_mem y hz) h2)

/-- Stability of the whole descending sort: an input whose equal-total
elements are already in ascending key order sorts into the spec order. -/
theorem insertionSort_bdLex :
    ∀ l : List (String × Int),
      l.Pairwise (fun a b => a.2 = b.2 → strLt a.1 b.1) →
      (l.insertionSort pairDescLe).Pairwise bdLex := by
  intro l
  induction l with
  | nil => intro _; simp [List.insertionSort]
  | cons a t ih =>
    intro hl
    rw [List.insertionSort]
    refine orderedInsert_bdLex a _ (ih (List.pairwise_cons.mp hl).2) ?_
    intro y hy h2
    rw [List.mem_insertionSort] at hy
    exact (List.pairwise_cons.mp hl).1 y hy h2

/-- C7 (amended): the breakdown output is always sorted by summed count
descending (true of every correct sort, whatever its tie behaviour) and
is a deterministic pure function of the record set; whenever the number
of distinct groups is at most 16 — numpy's insertion-sort regime, which
covers this repository's recognized categorical domains — ties are
additionally in the ascending natural (string) order of the categorical
value.  (Beyond 16 equal-total groups the real quicksort scrambles the
tie order — see the counterexample.) -/
theorem breakdown_sorted (df : List Record) (c : String) :
    (get_breakdown df c).Pairwise (fun a b => b.2 ≤ a.2) ∧
    ((groupKeys df c).length ≤ 16 → (get_breakdown df c).Pairwise bdLex) := by
  have hlex : (get_breakdown df c).Pairwise bdLex := by
    rw [get_breakdown]
    split
    · exact List.Pairwise.nil
    · rw [breakdownCore]
      refine insertionSort_bdLex _ ?_
      exact List.Pairwise.map _ (fun a b h => fun _ => h) (groupKeys_pairwise_strLt df c)
  refine ⟨hlex.imp ?_, fun _ => hlex⟩
  intro a b h
  rcases h with h | h
  · exact le_of_lt h
  · exact le_of_eq h.1.symm

/-- Witness for C7: a two-group frame is within the insertion-sort
regime, so both the descending order and the tie order hold. -/
theorem breakdown_sorted_witness :
    (get_breakdown wTrendDf "vehicle_type").Pairwise (fun a b => b.2 ≤ a.2) ∧
    (get_breakdown wTrendDf "vehicle_type").Pairwise bdLex :=
  ⟨(breakdown_sorted wTrendDf "vehicle_type").1,
   (breakdown_sorted wTrendDf "vehicle_type").2 (by decide)⟩

/-- C7 counterexample: seventeen equal-total manufacturer groups exceed
numpy's insertion-sort threshold; the real `sort_values` path (one
quicksort partition pass, then insertion sorts on the halves) completes
without the heapsort fallback and returns the equal-total groups in an
order that is **not** ascending by categorical value, refuting the
universally quantified ties-ascending claim. -/
theorem breakdown_ties_scrambled_beyond_small_sort :
    (realBreakdown cexDf17 "manufacturer").isSome = true ∧
    ((realBreakdown cexDf17 "manufacturer").getD []).map Prod.snd
      = List.replicate 17 5 ∧
    ¬ ((realBreakdown cexDf17 "manufacturer").getD []).Pairwise bdLex := by
  exact ⟨by decide, by decide, by decide⟩

/-! ## C8 — resampling conserves mass -/

/-- Pointwise sums add up over a key list. -/
theorem sum_map_add (ks : List Int) (g h : Int → Int) :
    (ks.map (fun k => g k + h k)).sum = (ks.map g).sum + (ks.map h).sum := by
  induction ks with
  | nil => rfl
  | cons a t ih =>
    simp only [List.map_cons, List.sum_cons, ih]
    omega

/-- A key outside the list contributes nothing. -/
theorem sum_map_ite_not_mem (x : Int) (v : Int) :
    ∀ ks : List Int, x ∉ ks →
      (ks.map (fun k => if x = k then v else 0)).sum = 0 := by
  intro ks
  induction ks with
  | nil => intro _; rfl
  | cons a t ih =>
    intro hx
    have hxa : x ≠ a := fun h => hx (h ▸ List.mem_cons_self a t)
    rw [List.map_cons, List.sum_cons, if_neg hxa,
      ih (fun h => hx (List.mem_cons_of_mem a h))]
    omega

/-- A key occurring exactly once contributes its value exactly once. -/
theorem sum_map_ite_single (x : Int) (v : Int) :
    ∀ ks : List Int, ks.Nodup → x ∈ ks →
      (ks.map (fun k => if x = k then v else 0)).sum = v := by
  intro ks
  induction ks with
  | nil => intro _ hx; cases hx
  | cons a t ih =>
    intro hnd hx
    rcases List.mem_cons.mp hx with rfl | hx'
    · have hnot : x ∉ t := (List.nodup_cons.mp hnd).1
      rw [List.map_cons, List.sum_cons, if_pos rfl, sum_map_ite_not_mem x v t hnot]
      omega
    · have hxa : x ≠ a := fun h => (List.nodup_cons.mp hnd).1 (h ▸ hx')
      rw [List.map_cons, List.sum_cons, if_neg hxa,
        ih (List.nodup_cons.mp hnd).2 hx']
      omega

/-- Summing each fiber of a partition by keys and then summing over the
(duplicate-free, covering) key list gives the total sum. -/
theorem sum_fiberwise {α : Type} (key : α → Int) (f : α → Int) :
    ∀ (l : List α) (ks : List Int), ks.Nodup → (∀ a ∈ l, key a ∈ ks) →
      (ks.map (fun k => ((l.filter (fun a => decide (key a = k))).map f).sum)).sum
        = (l.map f).sum := by
  intro l
  induction l with
  | nil =>
    intro ks _ _
    simp
  | cons a t ih =>
    intro ks hnd hcov
    have hsplit : ∀ k : Int,
        (((a :: t).filter (fun x => decide (key x = k))).map f).sum
          = (if key a = k then f a else 0)
            + ((t.filter (fun x => decide (key x = k))).map f).sum := by
      intro k
      rw [List.filter_cons]
      by_cases h : key a = k
      · simp [h]
      · simp [h]
    rw [List.map_congr_left (fun k _ => hsplit k), sum_map_add,
      sum_map_ite_single (key a) (f a) ks hnd (hcov a (List.mem_cons_self a t)),
      ih ks hnd (fun x hx => hcov x (List.mem_cons_of_mem a hx))]
    simp

/-- The running minimum of a fold is a lower bound of its seed and of
every folded element. -/
theorem foldl_min_bounds {α : Type} (g : α → Int) :
    ∀ (t : List α) (init : Int),
      t.foldl (fun acc x => min acc (g x)) init ≤ init ∧
      ∀ x ∈ t, t.foldl (fun acc x => min acc (g x)) init ≤ g x := by
  intro t
  induction t with
  | nil => intro init; exact ⟨le_refl _, by simp⟩
  | cons a t ih =>
    intro init
    constructor
    · exact le_trans (ih (min init (g a))).1 (min_le_left _ _)
    · intro x hx
      rcases List.mem_cons.mp hx with rfl | hx'
      · exact le_trans (ih (min init (g x))).1 (min_le_right _ _)
      · exact (ih (min init (g a))).2 x hx'

/-- The running maximum of a fold is an upper bound of its seed and of
every folded element. -/
theorem foldl_max_bounds {α : Type} (g : α → Int) :
    ∀ (t : List α) (init : Int),
      init ≤ t.foldl (fun acc x => max acc (g x)) init ∧
      ∀ x ∈ t, g x ≤ t.foldl (fun acc x => max acc (g x)) init := by
  intro t
  induction t with
  | nil => intro init; exact ⟨le_refl _, by simp⟩
  | cons a t ih =>
    intro init
    constructor
    · exact le_trans (le_max_left _ _) (ih (max init (g a))).1
    · intro x hx
      rcases List.mem_cons.mp hx with rfl | hx'
      · exact le_trans (le_max_right _ _) (ih (max init (g x))).1
      · exact (ih (max init (g a))).2 x hx'

/-- An integer between the end points lies in the dense range list. -/
theorem mem_range_map_of_bounds (lo hi v : Int) (h1 : lo ≤ v) (h2 : v ≤ hi) :
    v ∈ (List.range (hi - lo + 1).toNat).map (fun i : Nat => lo + (i : Int)) := by
  refine List.mem_map.mpr ⟨(v - lo).toNat, ?_, by omega⟩
  rw [List.mem_range]
  omega

/-- The dense range list has no duplicates. -/
theorem nodup_range_map (lo : Int) (n : Nat) :
    ((List.range n).map (fun i : Nat => lo + (i : Int))).Nodup := by
  refine List.Nodup.map ?_ (List.nodup_range n)
  intro i j hij
  have h' : lo + (i : Int) = lo + (j : Int) := hij
  omega

/-- Every record's bucket key lies in the dense resampling key range. -/
theorem mem_resampleKeys (key : Date → Int) (df : List Record) :
    ∀ r ∈ df, key r.date ∈ resampleKeys key df := by
  intro r hr
  cases df with
  | nil => cases hr
  | cons r0 t =>
    have hlo : t.foldl (fun a x => min a (key x.date)) (key r0.date) ≤ key r.date := by
      rcases List.mem_cons.mp hr with rfl | hr'
      · exact (foldl_min_bounds (fun x : Record => key x.date) t (key r.date)).1
      · exact (foldl_min_bounds (fun x : Record => key x.date) t (key r0.date)).2 r hr'
    have hhi : key r.date ≤ t.foldl (fun a x => max a (key x.date)) (key r0.date) := by
      rcases List.mem_cons.mp hr with rfl | hr'
      · exact (foldl_max_bounds (fun x : Record => key x.date) t (key r.date)).1
      · exact (foldl_max_bounds (fun x : Record => key x.date) t (key r0.date)).2 r hr'
    exact mem_range_map_of_bounds _ _ _ hlo hhi

/-- The dense resampling key range has no duplicates. -/
theorem nodup_resampleKeys (key : Date → Int) (df : List Record) :
    (resampleKeys key df).Nodup := by
  cases df with
  | nil => exact List.nodup_nil
  | cons r0 t => exact nodup_range_map _ _

/-- C8: the bucket totals of monthly resampling sum to the total count of
all records in the set. -/
theorem monthly_resampling_conserves_mass (df : List Record) :
    ((get_time_series df .M).map (·.total)).sum = sumReg df := by
  rw [get_time_series]
  by_cases hdf : df.isEmpty
  · rw [if_pos hdf, List.isEmpty_iff.mp hdf]
    rfl
  · rw [if_neg hdf, List.map_map, Function.comp_def]
    rw [show ((fun x => (mkBucket Freq.M x (sumReg (df.filter
        (fun r => decide (freqIdx Freq.M r.date = x))))).total))
      = fun m => ((df.filter (fun r => decide (freqIdx Freq.M r.date = m))).map
        (·.registrations)).sum from funext (fun m => rfl)]
    exact sum_fiberwise (fun r : Record => freqIdx .M r.date) (·.registrations) df
      (resampleKeys (freqIdx .M) df) (nodup_resampleKeys _ df)
      (fun a ha => mem_resampleKeys _ df a ha)
